import Mathlib

/-!
Verification of the global-minimization core of the pycalphad C++ engine
(libgibbs): the internal and global lower-convex-hull builders
(`convex_hull.cpp`, `convex_hull_global.cpp`), the tie-point resolver
(`global_minimization.hpp`) and the composition-set evaluation routines
(`compositionset.cpp`).

The embedding is shallow: `double` becomes `ℚ` (all the properties checked
here are robust, i.e. they hold or fail by margins far above float error),
`std::vector<double>` becomes `List ℚ`, `std::map`/`boost::bimap` become
association lists or total functions, and the external Qhull engine is a
black box whose facet output is passed in as data.  Comparisons of the form
`sqrt d > c` with `c ≥ 0` are embedded as `d > c^2`, which is equivalent.
-/

/- The concrete evaluations below reduce rational arithmetic inside
`decide`; the arithmetic core of `Rat` is `@[irreducible]` by default,
which only gates elaboration-time unfolding, not the kernel. -/
attribute [local semireducible] Rat.add Rat.sub Rat.mul Rat.inv

namespace PyCalphad

/-! ## Vector helpers shared by the hull code -/

/-- Componentwise `b - a`; mirrors the `std::transform(..., std::minus)`
idiom in the source.  When `a` is shorter than `b` the tail of `b` is kept
unchanged, exactly as the source's `difference` buffer (initialised as a
copy of `b`) keeps entries the loop over `a` never reaches. -/
def diffVec : List ℚ → List ℚ → List ℚ
  | [], bs => bs
  | _, [] => []
  | a :: as, b :: bs => (b - a) :: diffVec as bs

/-- Squared Euclidean distance as the source accumulates it:
sum of squares of the difference buffer.  The source then takes `sqrt` and
compares against `critical_edge_length`; we compare squares instead. -/
def distSq (a b : List ℚ) : ℚ := ((diffVec a b).map (fun c => c ^ 2)).sum

/-- Dot product of two coordinate lists (truncating at the shorter). -/
def dotQ (a b : List ℚ) : ℚ := ((a.zip b).map (fun p => p.1 * p.2)).sum

/-- Matrix (given as rows) times vector, `boost::numeric::ublas::prod`. -/
def matVec (rows : List (List ℚ)) (v : List ℚ) : List ℚ :=
  rows.map (fun r => dotQ r v)

/-- Last coordinate of a point (the energy); 0 for an empty list, which the
source never reads (it would be undefined behaviour there). -/
def lastCoord (p : List ℚ) : ℚ := p.getLastD 0

/-! ## `restore_dependent_dimensions` (convex_hull.cpp, lines 226-246)

The source walks the ascending set of dependent dimension indices; for each
it copies the independent coordinates of the current sublattice from the
reduced point, then appends `1 - (their sum)`.  Coordinates after the last
dependent dimension (the energy) are dropped because the loop ends. -/

def restoreGo : List ℚ → ℕ → List ℕ → List ℚ
  | _, _, [] => []
  | rest, offset, dim :: dims =>
      let taken := rest.take (dim - offset)
      taken ++ (1 - taken.sum) :: restoreGo (rest.drop (dim - offset)) (dim + 1) dims

def restore_dependent_dimensions (point : List ℚ) (dependent_dimensions : List ℕ) :
    List ℚ :=
  restoreGo point 0 dependent_dimensions

/-! ## The external hull engine's facet output (black box, see spec §6) -/

/-- A facet as the internal hull builder receives it from Qhull: definedness
and goodness flags, the hyperplane coefficient list (last coefficient is the
energy component of the outward normal) and the vertex points, each given in
the reduced coordinate system (independent site fractions followed by the
energy). -/
structure IFacet where
  isDef : Bool
  good : Bool
  normal : List ℚ
  vertexPoints : List (List ℚ)
  deriving DecidableEq

/-- The `too_similar` predicate of `internal_lower_convex_hull`: structural
walk declaring two points duplicates when they have equal length and every
coordinate differs by at most `1e-20`. -/
def too_similar : List ℚ → List ℚ → Bool
  | [], [] => true
  | [], _ :: _ => false
  | _ :: _, [] => false
  | a :: as, b :: bs => if |a - b| > 1 / 10 ^ 20 then false else too_similar as bs

/-- Lexicographic strict order on coordinate vectors
(`std::vector<double>::operator<`). -/
def vecLt : List ℚ → List ℚ → Bool
  | [], [] => false
  | [], _ :: _ => true
  | _ :: _, [] => false
  | a :: as, b :: bs => if a < b then true else if b < a then false else vecLt as bs

/-- Insertion of one element into a list sorted by `le`. -/
def insertBy (le : α → α → Bool) (x : α) : List α → List α
  | [] => [x]
  | y :: ys => if le x y then x :: y :: ys else y :: insertBy le x ys

/-- Insertion sort by `le`.  `std::sort` leaves equivalent elements in an
unspecified order, but the only sort whose output feeds further processing
here (`candidate_points`) compares whole coordinate vectors, where
equivalent elements are equal, so any sorted order is the same list. -/
def sortBy (le : α → α → Bool) (l : List α) : List α :=
  l.foldr (insertBy le) []

/-- `std::unique` with a binary predicate: drops each element that the
predicate declares equal to the last kept element. -/
def uniqueAdj (sim : α → α → Bool) : List α → List α
  | [] => []
  | x :: xs => x :: uniqueAdjGo sim x xs
where uniqueAdjGo (sim : α → α → Bool) : α → List α → List α
  | _, [] => []
  | last, y :: ys =>
      if sim last y then uniqueAdjGo sim last ys else y :: uniqueAdjGo sim y ys

/-! ## `internal_lower_convex_hull` (convex_hull.cpp, lines 46-224)

The Qhull call itself is the black box; the facet list it returns is a
parameter.  Everything around it is translated directly, including the
stray `continue` at line 107 that pushes every vertex of every lower-hull
facet into `candidate_points` and skips the edge-filtering loop below it
(that loop is dead code), and the second application of
`restore_dependent_dimensions` at line 198. -/

/-- Vertex collection of the facet loop (lines 94-108): for each defined,
good facet whose hyperplane is nonempty and whose last normal coordinate is
not positive, every vertex is pushed with dependent dimensions restored.
An empty hyperplane is skipped (the source reads its last coefficient
first, which for an empty hyperplane is undefined behaviour; Qhull does not
produce that combination). -/
def lowerHullVertices (deps : List ℕ) (facets : List IFacet) : List (List ℚ) :=
  facets.foldr
    (fun f acc =>
      if f.isDef && f.good then
        match f.normal.getLast? with
        | none => acc
        | some orient =>
            if orient > 0 then acc
            else f.vertexPoints.map (fun v => restore_dependent_dimensions v deps) ++ acc
      else acc)
    []

/-- The no-candidate fallback (lines 201-215): the first point of minimal
energy, with the energy coordinate popped (note: dependent dimensions are
not restored on this path). -/
def fallbackMinEnergy (points : List (List ℚ)) : List ℚ :=
  (points.foldl (fun best pt => if lastCoord best > lastCoord pt then pt else best)
      (points.headD [])).dropLast

def internal_lower_convex_hull (points : List (List ℚ)) (dependent_dimensions : List ℕ)
    (hullFacets : List IFacet) : List (List ℚ) :=
  match points with
  | [] => []      -- the source asserts nonemptiness
  | p :: rest =>
      if rest.isEmpty then
        [restore_dependent_dimensions p dependent_dimensions]
      else if (p :: rest).length ≤ p.length then
        (p :: rest).map (fun q => restore_dependent_dimensions q dependent_dimensions)
      else
        let candidate_points := lowerHullVertices dependent_dimensions hullFacets
        if candidate_points.isEmpty then
          [fallbackMinEnergy (p :: rest)]
        else
          (uniqueAdj too_similar
              (sortBy (fun a b => !vecLt b a) candidate_points)).map
            (fun q => restore_dependent_dimensions q dependent_dimensions)

/-- All unordered pairs of a list, each in left-to-right order. -/
def allPairs : List α → List (α × α)
  | [] => []
  | x :: xs => xs.map (fun y => (x, y)) ++ allPairs xs

/-- Modelled from the spec (§4.F tie-line coplanarity check): the edge
filter that the stray `continue` at convex_hull.cpp line 107 disables.
For each edge (vertex pair) of a lower-hull facet, the midpoint's
lever-rule energy (arithmetic mean of the vertex energies) is compared to
the true energy from the callback; the edge's vertices become candidates
only when the relative energy excess reaches the coplanarity allowance
`0.001` and the edge's Euclidean length in site-fraction space exceeds
`eps` (compared via squares). -/
def spec_tie_line_candidates (deps : List ℕ) (eps : ℚ) (energyFn : List ℚ → ℚ)
    (facets : List IFacet) : List (List ℚ) :=
  facets.foldr
    (fun f acc =>
      if f.isDef && f.good then
        match f.normal.getLast? with
        | none => acc
        | some orient =>
            if orient > 0 then acc
            else
              (allPairs f.vertexPoints).foldr
                (fun pr acc2 =>
                  let e1 := lastCoord pr.1
                  let e2 := lastCoord pr.2
                  let p1 := pr.1.dropLast
                  let p2 := pr.2.dropLast
                  let lever := (e1 + e2) / 2
                  let mid := restore_dependent_dimensions
                    (((pr.1.zip pr.2).map (fun ab => (ab.1 + ab.2) / 2)).dropLast) deps
                  if (energyFn mid - lever) / |lever| < 1 / 1000 then acc2
                  else if distSq p1 p2 > eps ^ 2 then
                    restore_dependent_dimensions p1 deps
                      :: restore_dependent_dimensions p2 deps :: acc2
                  else acc2)
                acc
      else acc)
    []

/-! ## `global_lower_convex_hull` (convex_hull_global.cpp)

The part of the global hull builder the claims are about is the facet's
basis matrix (lines 108-124): a `vertex_count × vertex_count` matrix whose
column `j` holds the coordinates of vertex `j` except the trailing energy,
with the final row all 1's.  The `InvertMatrix` call that would turn it
into the barycentric-coordinate map is commented out in the source, so the
matrix is stored uninverted. -/

/-- The stored (uninverted) basis matrix, as rows: row `i < n-1` collects
coordinate `i` of every vertex, the last row is all 1's.  `verts` are the
facet's vertex points in reduced global coordinates, energy last. -/
def facet_basis_matrix (verts : List (List ℚ)) : List (List ℚ) :=
  (List.range (verts.length - 1)).map (fun i => verts.map (fun v => v.getD i 0))
    ++ [verts.map (fun _ => (1 : ℚ))]

/-! ## The hull map and the tie-point resolver (global_minimization.hpp) -/

/-- One entry of the `ConvexHullMap`: phase name, internal site-fraction
coordinates, global mole-fraction coordinates, energy.  Its dense id is its
index in the list that models the map. -/
structure HullEntry where
  phase_name : String
  internal_coordinates : List ℚ
  global_coordinates : List ℚ
  energy : ℚ
  deriving DecidableEq

/-- A simplicial facet as stored by the global hull builder: vertex ids
into the hull map, the stored basis matrix (rows), hyperplane normal,
facet area. -/
structure TieFacet where
  vertices : List ℕ
  basis_matrix : List (List ℚ)
  normal : List ℚ
  area : ℚ
  deriving DecidableEq

/-- `hull_map[id]`; out-of-range access is undefined behaviour in the
source and never exercised here, the default entry stands in for it. -/
def entryAt (hullMap : List HullEntry) (id : ℕ) : HullEntry :=
  hullMap.getD id ⟨"", [], [], 0⟩

/-- The trial point of `find_tie_points`: the conditions' mole fractions
(in their map iteration order) with a trailing 1. -/
def trial_point (xfrac : List ℚ) : List ℚ := xfrac ++ [1]

/-- The facet-enclosure test of `find_tie_points` (lines 261-268): the
facet passes when no component of `basis_matrix · trial_point` is
negative. -/
def enclosesB (f : TieFacet) (p : List ℚ) : Bool :=
  (matVec f.basis_matrix p).all (fun c => decide (0 ≤ c))

/-- Ascending-sorted deduplicated list of naturals: the contents of the
`std::set<std::size_t> candidate_ids` after all inserts.  Because the set
is only inserted into during the `for_each_pair` scan, the scan order does
not matter, only the final membership. -/
def sortDedupNat (l : List ℕ) : List ℕ :=
  uniqueAdj (fun a b => a == b) (sortBy (fun a b => decide (a ≤ b)) l)

/-- The tie-point acceptance step of `find_tie_points` (lines 320-356):
for every unordered vertex pair of the winning facet, both ids are
accepted when the phases differ, or when they coincide and the internal
Euclidean distance exceeds `crit` (compared via squares). -/
def acceptTiePoints (crit : ℚ) (hullMap : List HullEntry) (verts : List ℕ) : List ℕ :=
  sortDedupNat
    ((allPairs verts).foldr
      (fun pr acc =>
        let e1 := entryAt hullMap pr.1
        let e2 := entryAt hullMap pr.2
        if e1.phase_name ≠ e2.phase_name then pr.1 :: pr.2 :: acc
        else if distSq e1.internal_coordinates e2.internal_coordinates > crit ^ 2 then
          pr.1 :: pr.2 :: acc
        else acc)
      [])

/-- The merge loop of `find_tie_points` (lines 360-388), translated with
iterators replaced by indices into the current sorted id list.  One call is
one evaluation of the inner `for` condition: `p2 + 1` is the
pre-incremented `point2`.  On an erase the source resets `point1` to
`begin` and `point2` to `++begin` (index 1), after which the condition's
pre-increment moves `point2` to index 2 — so the pair (0, 1) is skipped.
`fuel` only bounds the recursion; each step either consumes fuel with the
list shrinking or with `(p1, p2)` advancing inside bounds, so the fuel
passed by `find_tie_points` is never exhausted. -/
def mergeGo (crit : ℚ) (hullMap : List HullEntry) :
    ℕ → List ℕ → ℕ → ℕ → List ℕ
  | 0, ids, _, _ => ids
  | fuel + 1, ids, p1, p2 =>
      if p1 < ids.length then
        if p2 + 1 < ids.length then
          let e1 := entryAt hullMap (ids.getD p1 0)
          let e2 := entryAt hullMap (ids.getD (p2 + 1) 0)
          if e1.phase_name = e2.phase_name ∧
              distSq e1.internal_coordinates e2.internal_coordinates ≤ crit ^ 2 then
            mergeGo crit hullMap fuel (ids.eraseIdx (p2 + 1)) 0 1
          else
            mergeGo crit hullMap fuel ids p1 (p2 + 1)
        else
          mergeGo crit hullMap fuel ids (p1 + 1) (p1 + 1)
      else ids

/-- `GlobalMinimizer::find_tie_points` (global_minimization.hpp, lines
226-403).  The first argument mirrors the class member
`critical_edge_length`; the local constant declared at line 230 shadows it,
so the body uses `1/20` throughout.  `std::sort` guarantees only a sorted
permutation; the executable embedding uses insertion sort by area, and the
theorems about facet selection quantify over every sorted permutation
instead of relying on this choice. -/
def find_tie_points (critical_edge_length_member : ℚ) (hullMap : List HullEntry)
    (candidate_facets : List TieFacet) (xfrac : List ℚ) : List HullEntry :=
  let critical_edge_length : ℚ := 1 / 20
  let tp := trial_point xfrac
  let pre_candidate_facets := candidate_facets.filter (fun f => enclosesB f tp)
  match sortBy (fun a b => decide (a.area ≤ b.area)) pre_candidate_facets with
  | [] => []
  | final_facet :: _ =>
      let ids := acceptTiePoints critical_edge_length hullMap final_facet.vertices
      let merged :=
        mergeGo critical_edge_length hullMap ((ids.length + 1) ^ 3) ids 0 0
      let finalIds := if merged.isEmpty then [final_facet.vertices.headD 0] else merged
      finalIds.map (entryAt hullMap)

/-! ## Expression trees and their evaluation

`compositionset.cpp` evaluates its cached ASTs through `process_utree`
(declared in `utils/math_expr.hpp`); the body of `process_utree` is not
part of this repository snapshot, so the evaluator is modelled from the
spec.  Evaluation is total in `Option`: a missing variable binding or a
division by zero is an error that surfaces to the caller. -/

/-- Modelled from the spec: the energy-model expression tree of §3/§4.A
(`boost::spirit::utree` in the source, whose evaluator `process_utree` is
declared in `utils/math_expr.hpp` but implemented outside this snapshot).
The arithmetic core — constants, variable references and the binary
operations — is what the claims exercise; transcendental nodes, piecewise
nodes and the named-symbol table are not needed by any claim and are
omitted so that evaluation stays inside `ℚ`. -/
inductive Expr where
  | num : ℚ → Expr
  | var : String → Expr
  | add : Expr → Expr → Expr
  | sub : Expr → Expr → Expr
  | mul : Expr → Expr → Expr
  | div : Expr → Expr → Expr
  deriving DecidableEq

/-- Modelled from the spec: recursive fold of a tree under an environment
`ρ` (variable name to value, `none` for a missing binding, which is the
fatal missing-binding error of §7).  Division by zero is the domain
error. -/
def evalExpr : Expr → (String → Option ℚ) → Option ℚ
  | .num q, _ => some q
  | .var s, ρ => ρ s
  | .add a b, ρ => do pure ((← evalExpr a ρ) + (← evalExpr b ρ))
  | .sub a b, ρ => do pure ((← evalExpr a ρ) - (← evalExpr b ρ))
  | .mul a b, ρ => do pure ((← evalExpr a ρ) * (← evalExpr b ρ))
  | .div a b, ρ => do
      let x ← evalExpr a ρ
      let y ← evalExpr b ρ
      if y = 0 then none else pure (x / y)

/-- The variables referenced by a tree. -/
def exprVars : Expr → List String
  | .num _ => []
  | .var s => [s]
  | .add a b | .sub a b | .mul a b | .div a b => exprVars a ++ exprVars b

/-- First lookup in an association list; models `boost::bimap`'s
`left.at` with the exception expressed as `none`. -/
def assocLookup : List (String × ℤ) → String → Option ℤ
  | [], _ => none
  | p :: ps, s => if p.1 = s then some p.2 else assocLookup ps s

/-- The evaluation environment `process_utree` uses: resolve the name
through `main_indices` into the value array `x`. -/
def envOf (main_indices : List (String × ℤ)) (x : ℤ → ℚ) : String → Option ℚ :=
  fun s => (assocLookup main_indices s).map x

/-- `CompositionSet::evaluate_objective` (compositionset.cpp, lines
217-230): the sum of the model trees' values, any evaluation error
surfacing. -/
def evaluate_objective (models : List Expr) (ρ : String → Option ℚ) : Option ℚ :=
  models.foldr (fun t acc => do pure ((← evalExpr t ρ) + (← acc))) (some 0)

/-! ## `evaluate_objective_gradient` (compositionset.cpp, lines 253-278)

The cached first-derivative ASTs are a list of entries (differentiating
variable, tree).  The running return map is a total function `ℤ → ℚ`
initialised to zero (the source initialises every mapped index to zero;
the claims only ever read mapped indices). -/

/-- One cached derivative AST tagged with its differentiating variable. -/
structure AstEntry where
  diffvar : String
  ast : Expr
  deriving DecidableEq

/-- Pointwise update of the running return map. -/
def updFn (m : ℤ → ℚ) (i : ℤ) (v : ℚ) : ℤ → ℚ :=
  fun j => if j = i then v else m j

/-- The accumulation loop of `evaluate_objective_gradient`: each entry's
tree is evaluated, the contribution is multiplied by `x[_FRAC]` unless the
differentiating variable is the `_FRAC` variable itself, and added at the
variable's index.  A failed tree evaluation or index lookup is the
exception path, `none`. -/
def gradGo (compset_name : String) (main_indices : List (String × ℤ)) (x : ℤ → ℚ) :
    List AstEntry → (ℤ → ℚ) → Option (ℤ → ℚ)
  | [], m => some m
  | e :: es, m =>
      match evalExpr e.ast (envOf main_indices x), assocLookup main_indices e.diffvar with
      | some diffvalue, some varindex =>
          if e.diffvar = compset_name then
            gradGo compset_name main_indices x es (updFn m varindex (m varindex + diffvalue))
          else
            match assocLookup main_indices compset_name with
            | some fracindex =>
                gradGo compset_name main_indices x es
                  (updFn m varindex (m varindex + x fracindex * diffvalue))
            | none => none
      | _, _ => none

/-- `CompositionSet::evaluate_objective_gradient`, with
`compset_name = cset_name + "_FRAC"` passed in explicitly. -/
def evaluate_objective_gradient (compset_name : String)
    (main_indices : List (String × ℤ)) (tree_data : List AstEntry) (x : ℤ → ℚ) :
    Option (ℤ → ℚ) :=
  gradGo compset_name main_indices x tree_data (fun _ => 0)

/-! ## `evaluate_internal_objective_gradient` (compositionset.cpp, lines
302-321)

The source copies `x` into `x_copy`, then for each coordinate `i` sets
`x_copy[i]` to `x[i] - h`, evaluates, sets it to `x[i] + h`, evaluates, and
records the central difference — but never resets `x_copy[i]` to `x[i]`,
so every later coordinate is evaluated with the earlier ones stuck at
`x[j] + h`.  The objective is a parameter `f`. -/

def igGo (f : List ℚ → ℚ) (x : List ℚ) (h : ℚ) : ℕ → ℕ → List ℚ → List ℚ
  | 0, _, _ => []
  | fuel + 1, i, xCopy =>
      let lower := f (xCopy.set i (x.getD i 0 - h))
      let upCopy := xCopy.set i (x.getD i 0 + h)
      let upper := f upCopy
      (upper - lower) / (2 * h) :: igGo f x h fuel (i + 1) upCopy

def evaluate_internal_objective_gradient (f : List ℚ → ℚ) (x : List ℚ) : List ℚ :=
  igGo f x (1 / 10 ^ 7) x.length 0 x

/-- Modelled from the spec: the claimed reference behaviour — for each
coordinate `i` the central finite difference of `f` at step `1e-7`, all
other coordinates held at their values in `x`. -/
def central_difference_gradient (f : List ℚ → ℚ) (x : List ℚ) : List ℚ :=
  (List.range x.length).map
    (fun i =>
      (f (x.set i (x.getD i 0 + 1 / 10 ^ 7)) - f (x.set i (x.getD i 0 - 1 / 10 ^ 7)))
        / (2 * (1 / 10 ^ 7)))

/-! ## The clone with a renamed phase (compositionset.cpp, lines 168-216)

The clone constructor deep-copies models, derivative trees and index maps
through `ast_copy_with_renamed_phase` / `ast_variable_rename`, whose
implementations are outside this snapshot; the spec describes them as
replacing every occurrence of the old phase name in each variable name by
the new name.  `textReplace` below is that left-to-right, non-overlapping
replace-all. -/

/-- Replace-all on character lists; the fuel is the length of the subject,
which suffices because every step consumes at least one character (an empty
pattern is never replaced, matching `boost::replace_all`). -/
def replaceChars (pat sub : List Char) : ℕ → List Char → List Char
  | 0, s => s
  | _ + 1, [] => []
  | fuel + 1, c :: rest =>
      if pat ≠ [] ∧ pat.isPrefixOf (c :: rest) then
        sub ++ replaceChars pat sub fuel ((c :: rest).drop pat.length)
      else c :: replaceChars pat sub fuel rest

/-- Modelled from the spec: every occurrence of `pat` in `s` textually
replaced by `sub`. -/
def textReplace (s pat sub : String) : String :=
  ⟨replaceChars pat.data sub.data s.data.length s.data⟩

/-- Modelled from the spec: `ast_variable_rename` — the tree walked with
every variable name rewritten by the textual replacement. -/
def ast_variable_rename (oldName newName : String) : Expr → Expr
  | .num q => .num q
  | .var s => .var (textReplace s oldName newName)
  | .add a b => .add (ast_variable_rename oldName newName a) (ast_variable_rename oldName newName b)
  | .sub a b => .sub (ast_variable_rename oldName newName a) (ast_variable_rename oldName newName b)
  | .mul a b => .mul (ast_variable_rename oldName newName a) (ast_variable_rename oldName newName b)
  | .div a b => .div (ast_variable_rename oldName newName a) (ast_variable_rename oldName newName b)

/-- The clone's derivative entries: diffvar and tree both renamed
(`ast_copy_with_renamed_phase` over `tree_data`). -/
def renameEntries (oldName newName : String) (es : List AstEntry) : List AstEntry :=
  es.map (fun e => ⟨textReplace e.diffvar oldName newName, ast_variable_rename oldName newName e.ast⟩)

/-- The clone's variable index map: keys renamed, indices kept
(`ast_copy_with_renamed_phase` over `phase_indices`). -/
def renameIndices (oldName newName : String) (idx : List (String × ℤ)) :
    List (String × ℤ) :=
  idx.map (fun p => (textReplace p.1 oldName newName, p.2))

/-! ## The `std::sort` contract used by `find_tie_points`

`std::sort(pre_candidate_facets, a.area < b.area)` guarantees only that the
result is a permutation of the input that is nondecreasing in area; the
relative order of equal-area facets is unspecified (`std::sort` is not the
stable sort).  Facet-selection statements therefore quantify over every
list satisfying this contract. -/

def sortedByArea (l : List TieFacet) : Prop :=
  List.Pairwise (fun a b => a.area ≤ b.area) l

/-- `sortContract l l'` holds exactly when `l'` is a possible output of
`std::sort` on input `l` under the area comparator. -/
def sortContract (l l' : List TieFacet) : Prop :=
  l.Perm l' ∧ sortedByArea l'

instance (l : List TieFacet) : Decidable (sortedByArea l) := by
  unfold sortedByArea; infer_instance

instance (l l' : List TieFacet) : Decidable (sortContract l l') := by
  unfold sortContract; infer_instance

/-- The per-entry contribution that `evaluate_objective_gradient`
accumulates: the tree's value weighted by `x[_FRAC]`, except for the
`_FRAC` derivative itself, which is unweighted. -/
def entryContribution (compset_name : String) (main_indices : List (String × ℤ))
    (x : ℤ → ℚ) (e : AstEntry) : ℚ :=
  (if e.diffvar = compset_name then 1
    else ((assocLookup main_indices compset_name).map x).getD 0)
    * (evalExpr e.ast (envOf main_indices x)).getD 0

/-- The variable names whose index lookups and environment values the
objective and gradient of one composition set can touch: the `_FRAC`
variable, every differentiating variable, and every variable referenced by
a model or derivative tree. -/
def cloneRelevantNames (models : List Expr) (es : List AstEntry) (fracName : String) :
    List String :=
  fracName :: (es.map (fun e => e.diffvar)
    ++ models.flatMap exprVars ++ (es.map (fun e => e.ast)).flatMap exprVars)

/-! ## Helper inputs used by individual claim checks -/

/-- The two-variable product objective `f(y0, y1) = y0 * y1`, expressed
through the embedded expression evaluator. -/
def productObjective (v : List ℚ) : ℚ :=
  (evalExpr (Expr.mul (Expr.var ("Y0")) (Expr.var ("Y1")))
      (fun s => if s = "Y0" then some (v.getD 0 0)
        else if s = "Y1" then some (v.getD 1 0) else none)).getD 0

/-! ## Claim theorems -/

/-- C1: the tie-point resolver's stored basis matrix does not act as the
inverse of the vertex matrix.  For the facet with reduced vertex
coordinates 0 and 1 (a binary tie line) and the target mole fraction 0.3,
the resolver selects the facet (the product `basis · trial_point` has no
negative component, and `find_tie_points` returns its tie points), but the
components of that product sum to 23/10 — not 1 within 1e-10, because the
`InvertMatrix` call in `global_lower_convex_hull` is commented out and the
matrix is stored uninverted. -/
theorem C1_stored_basis_matrix_is_not_inverse :
    find_tie_points (1 / 20)
        [⟨"ALPHA", [0], [0, 1], -5⟩, ⟨"BETA", [1], [1, 0], -3⟩]
        [⟨[0, 1], facet_basis_matrix [[0, -5], [1, -3]], [0, 0, -1], 1⟩] [3 / 10] ≠ []
    ∧ (matVec (facet_basis_matrix [[0, -5], [1, -3]]) (trial_point [3 / 10])).all
        (fun c => decide (0 ≤ c)) = true
    ∧ (matVec (facet_basis_matrix [[0, -5], [1, -3]]) (trial_point [3 / 10])).sum = 23 / 10
    ∧ ¬ |(matVec (facet_basis_matrix [[0, -5], [1, -3]]) (trial_point [3 / 10])).sum - 1|
        ≤ 1 / 10 ^ 10 := by
  decide

/-- C2: the stray `continue` at convex_hull.cpp line 107 bypasses the
edge filter, so `internal_lower_convex_hull` returns the vertices of a
lower-hull facet whose only edge is coplanar (true midpoint energy equal
to the lever-rule energy, relative excess 0 < 0.001).  The spec-modelled
filter accepts no edge of this facet, so under the claim the vertices must
not become candidates — yet the code returns both. -/
theorem C2_coplanar_edge_vertices_still_returned :
    internal_lower_convex_hull
        [[0, 1, -10], [1, 0, -10], [1 / 2, 1 / 2, -10], [1 / 4, 3 / 4, -10]] [1]
        [⟨true, true, [0, 0, -1], [[0, -10], [1, -10]]⟩] = [[0, 1], [1, 0]]
    ∧ spec_tie_line_candidates [1] (1 / 20) (fun _ => -10)
        [⟨true, true, [0, 0, -1], [[0, -10], [1, -10]]⟩] = [] := by
  decide

/-- C3: in the candidate branch, `internal_lower_convex_hull` applies
`restore_dependent_dimensions` twice (once when collecting facet vertices,
line 104, and again when building `final_points`, line 198).  For a
two-sublattice facet vertex with independent coordinates
y₀ = 3/10, y₂ = 6/10 (dependent dimensions {1, 3}), the returned point is
(3/10, 7/10, 7/10, 3/10): the second sublattice's coordinates are
corrupted, and the point differs from the single restoration
(3/10, 7/10, 6/10, 4/10) required by the claim. -/
theorem C3_dependent_dimensions_restored_twice :
    internal_lower_convex_hull
        [[1 / 2, 1 / 2, 1 / 2, 1 / 2, -1], [1 / 4, 3 / 4, 1 / 4, 3 / 4, -2],
         [1 / 3, 2 / 3, 1 / 3, 2 / 3, -3], [1 / 5, 4 / 5, 1 / 5, 4 / 5, -4],
         [2 / 5, 3 / 5, 2 / 5, 3 / 5, -5], [3 / 5, 2 / 5, 3 / 5, 2 / 5, -6]] [1, 3]
        [⟨true, true, [0, 0, 0, -1], [[3 / 10, 6 / 10, -7]]⟩]
      = [[3 / 10, 7 / 10, 7 / 10, 3 / 10]]
    ∧ restore_dependent_dimensions [3 / 10, 6 / 10, -7] [1, 3]
      = [3 / 10, 7 / 10, 6 / 10, 4 / 10]
    ∧ ([[3 / 10, 7 / 10, 7 / 10, 3 / 10]] : List (List ℚ))
      ≠ [[3 / 10, 7 / 10, 6 / 10, 4 / 10]] := by
  decide

/-- C4: `evaluate_internal_objective_gradient` never resets `x_copy[i]`
to `x[i]` after processing coordinate `i`, so later coordinates are
differentiated with the earlier ones held at `x[j] + 1e-7`.  For
`f(y0, y1) = y0 * y1` at `x = (2, 3)` the code returns gradient component
1 as `2 + 1e-7`, while the claimed central difference (all other
coordinates held at their values in `x`) is exactly `2`. -/
theorem C4_perturbation_not_reset :
    evaluate_internal_objective_gradient productObjective [2, 3] = [3, 2 + 1 / 10 ^ 7]
    ∧ central_difference_gradient productObjective [2, 3] = [3, 2]
    ∧ evaluate_internal_objective_gradient productObjective [2, 3]
      ≠ central_difference_gradient productObjective [2, 3] := by
  decide

/-- C5: the merge loop's reset after a deletion
(`point1 = begin; point2 = ++begin;` followed by the for-condition's
pre-increment) skips the pair of the first and second remaining ids.  With
hull ids 0, 1, 2 in phase ALPHA at internal coordinates 0, 0.01, 0.02 and
id 3 in phase BETA, `find_tie_points` erases id 1, skips the pair (0, 2),
and returns entries 0 and 2 of the same phase at internal distance
0.02 ≤ 0.05 — violating the claimed postcondition. -/
theorem C5_same_phase_near_duplicates_survive_merge :
    find_tie_points (1 / 20)
        [⟨"ALPHA", [0], [0, 1], -1⟩, ⟨"ALPHA", [1 / 100], [1 / 100, 99 / 100], -2⟩,
         ⟨"ALPHA", [1 / 50], [1 / 50, 49 / 50], -3⟩, ⟨"BETA", [1 / 2], [1 / 2, 1 / 2], -4⟩]
        [⟨[0, 1, 2, 3], [[1, 0], [0, 1]], [0, 0, -1], 1⟩] [1 / 2]
      = [⟨"ALPHA", [0], [0, 1], -1⟩, ⟨"ALPHA", [1 / 50], [1 / 50, 49 / 50], -3⟩,
         ⟨"BETA", [1 / 2], [1 / 2, 1 / 2], -4⟩]
    ∧ (⟨"ALPHA", [0], [0, 1], -1⟩ : HullEntry).phase_name
      = (⟨"ALPHA", [1 / 50], [1 / 50, 49 / 50], -3⟩ : HullEntry).phase_name
    ∧ distSq (⟨"ALPHA", [0], [0, 1], -1⟩ : HullEntry).internal_coordinates
        (⟨"ALPHA", [1 / 50], [1 / 50, 49 / 50], -3⟩ : HullEntry).internal_coordinates
      ≤ (1 / 20) ^ 2 := by
  decide

/-- C10: `find_tie_points` declares a local `critical_edge_length = 0.05`
(global_minimization.hpp line 230) that shadows the configured class
member, so both the tie-line acceptance step and the merge step compare
against the fixed constant: two runs that differ only in the member but
agree on the hull map, the candidate facets and the conditions return
identical tie points. -/
theorem C10_member_critical_edge_length_is_shadowed :
    ∀ (m₁ m₂ : ℚ) (hullMap : List HullEntry) (facets : List TieFacet) (xfrac : List ℚ),
      find_tie_points m₁ hullMap facets xfrac = find_tie_points m₂ hullMap facets xfrac :=
  fun _ _ _ _ _ => rfl

/-- C6 counterexample: two points of dimension 3 are fewer than `D+1`,
yet `internal_lower_convex_hull` does not return an empty result — it
returns both points (with dependent coordinates restored). -/
theorem C6_counterexample_degenerate_input_not_empty :
    internal_lower_convex_hull [[1 / 2, 1 / 2, 10], [1 / 4, 3 / 4, 20]] [1] [] ≠ []
    ∧ ([[1 / 2, 1 / 2, (10 : ℚ)], [1 / 4, 3 / 4, 20]] : List (List ℚ)).length
      ≤ ([1 / 2, 1 / 2, (10 : ℚ)] : List ℚ).length := by
  decide

/-- C6 (amended): when at most `point_dimension` points are supplied (and
at least one), `internal_lower_convex_hull` returns all of them with
dependent coordinates restored, never an empty result. -/
theorem C6_degenerate_hull_returns_all_points (p : List ℚ) (rest : List (List ℚ))
    (deps : List ℕ) (facets : List IFacet)
    (h : (p :: rest).length ≤ p.length) :
    internal_lower_convex_hull (p :: rest) deps facets
      = (p :: rest).map (fun q => restore_dependent_dimensions q deps) := by
  cases rest with
  | nil => simp [internal_lower_convex_hull]
  | cons q rs =>
      simp [internal_lower_convex_hull, h]
      intro h2
      simp at h
      omega

/-- C6 witness: the amended statement at the counterexample's input. -/
theorem C6_degenerate_hull_returns_all_points_witness :
    internal_lower_convex_hull [[1 / 2, 1 / 2, 10], [1 / 4, 3 / 4, 20]] [1] []
      = [[1 / 2, 1 / 2], [1 / 4, 3 / 4]] := by
  rw [C6_degenerate_hull_returns_all_points _ _ _ _ (by decide)]
  decide

/-- C7 counterexample: two distinct enclosing facets of equal area.  Both
orders satisfy the `std::sort` contract, so there is a legal run of
`find_tie_points` whose selected facet is not the first-inserted one; the
claimed insertion-order (stable-sort) tie-break is not a property of the
code, which calls the unstable `std::sort`. -/
theorem C7_counterexample_equal_area_tie_not_insertion_order :
    ([(⟨[0, 1], [[1, 0], [0, 1]], [0, 0, -1], 5⟩ : TieFacet),
        ⟨[2, 3], [[1, 0], [0, 1]], [0, 0, -1], 5⟩].filter
      (fun f => enclosesB f (trial_point [1 / 2])))
      = [⟨[0, 1], [[1, 0], [0, 1]], [0, 0, -1], 5⟩, ⟨[2, 3], [[1, 0], [0, 1]], [0, 0, -1], 5⟩]
    ∧ sortContract
        [⟨[0, 1], [[1, 0], [0, 1]], [0, 0, -1], 5⟩, ⟨[2, 3], [[1, 0], [0, 1]], [0, 0, -1], 5⟩]
        [⟨[2, 3], [[1, 0], [0, 1]], [0, 0, -1], 5⟩, ⟨[0, 1], [[1, 0], [0, 1]], [0, 0, -1], 5⟩]
    ∧ ¬ (∀ l', sortContract
          [⟨[0, 1], [[1, 0], [0, 1]], [0, 0, -1], 5⟩, ⟨[2, 3], [[1, 0], [0, 1]], [0, 0, -1], 5⟩] l'
          → l'.head? = some ⟨[0, 1], [[1, 0], [0, 1]], [0, 0, -1], 5⟩) := by
  refine ⟨by decide, by decide, ?_⟩
  intro hall
  have := hall
    [⟨[2, 3], [[1, 0], [0, 1]], [0, 0, -1], 5⟩, ⟨[0, 1], [[1, 0], [0, 1]], [0, 0, -1], 5⟩]
    (by decide)
  simp at this

/-- C7 (amended): for every output `sorted` that the `std::sort` contract
allows on the enclosing facets, `find_tie_points` returns empty exactly
when no facet encloses the target point, and otherwise the selected facet
(the head of `sorted`) encloses the target and has minimal area among all
enclosing facets; which equal-area facet is selected is whatever order
`std::sort` leaves, not necessarily insertion order. -/
theorem C7_empty_iff_no_enclosing_and_head_minimal
    (facets : List TieFacet) (xfrac : List ℚ) (sorted : List TieFacet)
    (h : sortContract (facets.filter (fun f => enclosesB f (trial_point xfrac))) sorted) :
    (sorted = [] ↔ ∀ f ∈ facets, enclosesB f (trial_point xfrac) = false)
    ∧ ∀ f, sorted.head? = some f →
        enclosesB f (trial_point xfrac) = true
        ∧ ∀ g ∈ facets, enclosesB g (trial_point xfrac) = true → f.area ≤ g.area := by
  obtain ⟨hperm, hsort⟩ := h
  constructor
  · constructor
    · intro hnil
      rw [hnil] at hperm
      have hfil := hperm.eq_nil
      intro f hf
      have := List.filter_eq_nil_iff.mp hfil f hf
      simpa using this
    · intro hall
      have hfil : facets.filter (fun f => enclosesB f (trial_point xfrac)) = [] :=
        List.filter_eq_nil_iff.mpr (fun a ha => by simp [hall a ha])
      rw [hfil] at hperm
      exact hperm.symm.eq_nil
  · intro f hf
    cases sorted with
    | nil => simp at hf
    | cons f0 tl =>
      have hf0 : f = f0 := by simpa using hf.symm
      subst hf0
      have hmem : f ∈ facets.filter (fun g => enclosesB g (trial_point xfrac)) :=
        hperm.symm.subset (List.mem_cons_self f tl)
      constructor
      · exact (List.mem_filter.mp hmem).2
      · intro g hg hgenc
        have hgmem : g ∈ f :: tl :=
          hperm.subset (List.mem_filter.mpr ⟨hg, hgenc⟩)
        rcases List.mem_cons.mp hgmem with hcase | hcase
        · rw [hcase]
        · exact (List.pairwise_cons.mp hsort).1 g hcase

/-- C7 witness: the amended statement applied to one enclosing facet. -/
theorem C7_empty_iff_no_enclosing_and_head_minimal_witness :
    enclosesB (⟨[0, 1], [[1, 0], [0, 1]], [0, 0, -1], 5⟩ : TieFacet) (trial_point [1 / 2]) = true
    ∧ ∀ g ∈ [(⟨[0, 1], [[1, 0], [0, 1]], [0, 0, -1], 5⟩ : TieFacet)],
        enclosesB g (trial_point [1 / 2]) = true
        → (⟨[0, 1], [[1, 0], [0, 1]], [0, 0, -1], 5⟩ : TieFacet).area ≤ g.area :=
  (C7_empty_iff_no_enclosing_and_head_minimal
      [⟨[0, 1], [[1, 0], [0, 1]], [0, 0, -1], 5⟩] [1 / 2]
      [⟨[0, 1], [[1, 0], [0, 1]], [0, 0, -1], 5⟩] (by decide)).2
    _ rfl

/-- The accumulation loop of `evaluate_objective_gradient`, characterised:
when it succeeds starting from map `m`, the final map at index `i` is
`m i` plus the sum of the contributions of the entries whose
differentiating variable resolves to `i`, each weighted by `x[_FRAC]`
except the `_FRAC` derivative itself. -/
theorem gradGo_spec (cn : String) (mi : List (String × ℤ)) (x : ℤ → ℚ) :
    ∀ (es : List AstEntry) (m r : ℤ → ℚ),
      gradGo cn mi x es m = some r →
      ∀ i, r i = m i
        + ((es.filter (fun e => assocLookup mi e.diffvar == some i)).map
            (entryContribution cn mi x)).sum := by
  intro es
  induction es with
  | nil =>
      intro m r h i
      simp only [gradGo, Option.some.injEq] at h
      subst h
      simp
  | cons e es ih =>
      intro m r h i
      simp only [gradGo] at h
      cases hev : evalExpr e.ast (envOf mi x) with
      | none => rw [hev] at h; simp at h
      | some dv =>
        rw [hev] at h
        cases hlk : assocLookup mi e.diffvar with
        | none => rw [hlk] at h; simp at h
        | some vi =>
          rw [hlk] at h
          simp only [] at h
          by_cases hfr : e.diffvar = cn
          · rw [if_pos hfr] at h
            have hih := ih _ _ h i
            by_cases hvi : vi = i
            · subst hvi
              simp only [List.filter_cons, hlk, beq_self_eq_true, if_pos] at *
              rw [hih]
              simp [updFn, entryContribution, hfr, hev]
              ring
            · have hne : (assocLookup mi e.diffvar == some i) = false := by
                rw [hlk]; simp [hvi]
              rw [List.filter_cons_of_neg (by simp [hne])]
              rw [hih]
              simp [updFn, hvi, Ne.symm hvi]
          · rw [if_neg hfr] at h
            cases hcn : assocLookup mi cn with
            | none => rw [hcn] at h; simp at h
            | some fi =>
              rw [hcn] at h
              have hih := ih _ _ h i
              by_cases hvi : vi = i
              · subst hvi
                simp only [List.filter_cons, hlk, beq_self_eq_true, if_pos] at *
                rw [hih]
                simp [updFn, entryContribution, hfr, hev, hcn]
                ring
              · have hne : (assocLookup mi e.diffvar == some i) = false := by
                  rw [hlk]; simp [hvi]
                rw [List.filter_cons_of_neg (by simp [hne])]
                rw [hih]
                simp [updFn, hvi, Ne.symm hvi]

/-- C8: in `evaluate_objective_gradient`, every first-derivative
contribution is multiplied by `x[_FRAC]` before being accumulated at its
variable's index, except the contribution of the derivative with respect
to `_FRAC` itself, which is accumulated unweighted (it is the phase's raw
energy): the returned map at index `i` is exactly the sum of the
so-weighted contributions of the entries whose differentiating variable
has index `i`. -/
theorem C8_gradient_weighted_by_phase_fraction (cn : String)
    (mi : List (String × ℤ)) (td : List AstEntry) (x : ℤ → ℚ) (r : ℤ → ℚ)
    (h : evaluate_objective_gradient cn mi td x = some r) (i : ℤ) :
    r i = ((td.filter (fun e => assocLookup mi e.diffvar == some i)).map
        (entryContribution cn mi x)).sum := by
  have := gradGo_spec cn mi x td (fun _ => 0) r h i
  simpa using this

/-- C8 witness: a two-entry derivative set; the non-`_FRAC` entry is
weighted by `x[_FRAC] = 1/2` (6 becomes 3), the `_FRAC` entry is
accumulated raw (9). -/
theorem C8_gradient_weighted_by_phase_fraction_witness :
    ∃ r, evaluate_objective_gradient ("P_FRAC") [("P_0_A", 0), ("P_FRAC", 1)]
        [⟨"P_0_A", Expr.num 6⟩, ⟨"P_FRAC", Expr.num 9⟩]
        (fun i => if i = 1 then 1 / 2 else 7) = some r
      ∧ r 0 = 3 ∧ r 1 = 9 := by
  cases hG : evaluate_objective_gradient ("P_FRAC") [("P_0_A", 0), ("P_FRAC", 1)]
      [⟨"P_0_A", Expr.num 6⟩, ⟨"P_FRAC", Expr.num 9⟩]
      (fun i => if i = 1 then 1 / 2 else 7) with
  | none =>
      have hs : (evaluate_objective_gradient ("P_FRAC") [("P_0_A", 0), ("P_FRAC", 1)]
          [⟨"P_0_A", Expr.num 6⟩, ⟨"P_FRAC", Expr.num 9⟩]
          (fun i => if i = 1 then 1 / 2 else 7)).isSome = true := rfl
      rw [hG] at hs
      simp at hs
  | some r =>
      refine ⟨r, rfl, ?_, ?_⟩
      · rw [C8_gradient_weighted_by_phase_fraction _ _ _ _ _ hG 0]; decide
      · rw [C8_gradient_weighted_by_phase_fraction _ _ _ _ _ hG 1]; decide

/-- Renaming a tree and evaluating equals evaluating the original tree in
the environment pulled back along the textual rename, provided the two
environments agree accordingly on the tree's variables. -/
theorem evalExpr_rename (oldName newName : String) (t : Expr) :
    ∀ (ρ₁ ρ₂ : String → Option ℚ),
      (∀ s ∈ exprVars t, ρ₁ (textReplace s oldName newName) = ρ₂ s) →
      evalExpr (ast_variable_rename oldName newName t) ρ₁ = evalExpr t ρ₂ := by
  induction t with
  | num q => intro _ _ _; rfl
  | var s => intro ρ₁ ρ₂ h; exact h s (by simp [exprVars])
  | add a b iha ihb =>
      intro ρ₁ ρ₂ h
      simp only [ast_variable_rename, evalExpr]
      rw [iha _ _ (fun s hs => h s (by simp [exprVars, hs])),
          ihb _ _ (fun s hs => h s (by simp [exprVars, hs]))]
  | sub a b iha ihb =>
      intro ρ₁ ρ₂ h
      simp only [ast_variable_rename, evalExpr]
      rw [iha _ _ (fun s hs => h s (by simp [exprVars, hs])),
          ihb _ _ (fun s hs => h s (by simp [exprVars, hs]))]
  | mul a b iha ihb =>
      intro ρ₁ ρ₂ h
      simp only [ast_variable_rename, evalExpr]
      rw [iha _ _ (fun s hs => h s (by simp [exprVars, hs])),
          ihb _ _ (fun s hs => h s (by simp [exprVars, hs]))]
  | div a b iha ihb =>
      intro ρ₁ ρ₂ h
      simp only [ast_variable_rename, evalExpr]
      rw [iha _ _ (fun s hs => h s (by simp [exprVars, hs])),
          ihb _ _ (fun s hs => h s (by simp [exprVars, hs]))]

theorem evaluate_objective_cons (t : Expr) (ts : List Expr) (ρ : String → Option ℚ) :
    evaluate_objective (t :: ts) ρ
      = (evalExpr t ρ).bind (fun a => (evaluate_objective ts ρ).bind (fun b => some (a + b))) :=
  rfl

/-- The clone's objective equals the original's whenever the environments
correspond under the rename on every variable of every model tree. -/
theorem evaluate_objective_rename (oldName newName : String) :
    ∀ (models : List Expr) (ρ₁ ρ₂ : String → Option ℚ),
      (∀ t ∈ models, ∀ s ∈ exprVars t, ρ₁ (textReplace s oldName newName) = ρ₂ s) →
      evaluate_objective (models.map (ast_variable_rename oldName newName)) ρ₁
        = evaluate_objective models ρ₂ := by
  intro models
  induction models with
  | nil => intro _ _ _; rfl
  | cons t ts ih =>
      intro ρ₁ ρ₂ h
      rw [List.map_cons, evaluate_objective_cons, evaluate_objective_cons,
          evalExpr_rename _ _ t _ _ (h t (by simp)),
          ih _ _ (fun u hu s hs => h u (by simp [hu]) s hs)]

/-- The clone's gradient loop equals the original's, provided the renamed
index map agrees with the original under the rename (on the
differentiating variables, the tree variables and the `_FRAC` variable),
the rename identifies the `_FRAC` variables of the two phases, and no
other differentiating variable is renamed onto the clone's `_FRAC`
name. -/
theorem gradGo_rename (oldName newName : String) (idx : List (String × ℤ)) (x : ℤ → ℚ) :
    ∀ (es : List AstEntry) (m : ℤ → ℚ),
      (∀ e ∈ es, assocLookup (renameIndices oldName newName idx)
          (textReplace e.diffvar oldName newName) = assocLookup idx e.diffvar) →
      (∀ e ∈ es, ∀ s ∈ exprVars e.ast, assocLookup (renameIndices oldName newName idx)
          (textReplace s oldName newName) = assocLookup idx s) →
      (assocLookup (renameIndices oldName newName idx)
          (textReplace (oldName ++ "_FRAC") oldName newName)
        = assocLookup idx (oldName ++ "_FRAC")) →
      (∀ e ∈ es, (textReplace e.diffvar oldName newName = newName ++ "_FRAC"
          ↔ e.diffvar = oldName ++ "_FRAC")) →
      textReplace (oldName ++ "_FRAC") oldName newName = newName ++ "_FRAC" →
      gradGo (newName ++ "_FRAC") (renameIndices oldName newName idx) x
          (renameEntries oldName newName es) m
        = gradGo (oldName ++ "_FRAC") idx x es m := by
  intro es
  induction es with
  | nil => intro _ _ _ _ _ _; rfl
  | cons e es ih =>
      intro m Hd Hv Hf H2 H3
      have hEnv : ∀ s ∈ exprVars e.ast,
          envOf (renameIndices oldName newName idx) x (textReplace s oldName newName)
            = envOf idx x s := by
        intro s hs
        simp only [envOf]
        rw [Hv e (by simp) s hs]
      have hev := evalExpr_rename oldName newName e.ast _ _ hEnv
      have hlk := Hd e (by simp)
      have hw : assocLookup (renameIndices oldName newName idx) (newName ++ "_FRAC")
          = assocLookup idx (oldName ++ "_FRAC") := by
        rw [← H3]; exact Hf
      simp only [renameEntries, List.map_cons, gradGo]
      rw [hev, hlk]
      cases evalExpr e.ast (envOf idx x) with
      | none => rfl
      | some dv =>
        cases assocLookup idx e.diffvar with
        | none => rfl
        | some vi =>
          simp only []
          have ihx := fun m => ih m (fun u hu => Hd u (by simp [hu]))
            (fun u hu s hs => Hv u (by simp [hu]) s hs) Hf
            (fun u hu => H2 u (by simp [hu])) H3
          by_cases hd : e.diffvar = oldName ++ "_FRAC"
          · rw [if_pos hd, if_pos ((H2 e (by simp)).mpr hd)]
            exact ihx _
          · rw [if_neg hd, if_neg (fun hc => hd ((H2 e (by simp)).mp hc))]
            rw [hw]
            cases assocLookup idx (oldName ++ "_FRAC") with
            | none => rfl
            | some fi => exact ihx _

/-- C9 counterexample: the textual rename is not collision-free for phase
name "A" renamed to "B": the old phase-fraction variable `A_FRAC` becomes
`B_FRBC` (the second `A` inside `_FRAC` is also replaced), so the clone's
gradient evaluation cannot find its phase-fraction variable `B_FRAC` and
fails (`none`), while the original's gradient succeeds — the clone does
not produce identical gradient values. -/
theorem C9_counterexample_textual_rename_collision :
    gradGo ("B" ++ "_FRAC") (renameIndices ("A") ("B") [("A_FRAC", 0)])
        (fun _ => 1 / 2) (renameEntries ("A") ("B") [⟨"A_FRAC", Expr.num 5⟩]) (fun _ => 0)
      = none
    ∧ (gradGo ("A" ++ "_FRAC") [("A_FRAC", 0)] (fun _ => 1 / 2)
        [⟨"A_FRAC", Expr.num 5⟩] (fun _ => 0)).isSome = true
    ∧ textReplace ("A_FRAC") ("A") ("B") = "B_FRBC"
    ∧ gradGo ("B" ++ "_FRAC") (renameIndices ("A") ("B") [("A_FRAC", 0)])
        (fun _ => 1 / 2) (renameEntries ("A") ("B") [⟨"A_FRAC", Expr.num 5⟩]) (fun _ => 0)
      ≠ gradGo ("A" ++ "_FRAC") [("A_FRAC", 0)] (fun _ => 1 / 2)
        [⟨"A_FRAC", Expr.num 5⟩] (fun _ => 0) := by
  refine ⟨rfl, rfl, rfl, ?_⟩
  intro hc
  have h1 : (gradGo ("B" ++ "_FRAC") (renameIndices ("A") ("B") [("A_FRAC", 0)])
      (fun _ => 1 / 2) (renameEntries ("A") ("B") [⟨"A_FRAC", Expr.num 5⟩])
      (fun _ => 0)).isSome = false := rfl
  rw [hc] at h1
  have h2 : (gradGo ("A" ++ "_FRAC") [("A_FRAC", 0)] (fun _ => 1 / 2)
      [⟨"A_FRAC", Expr.num 5⟩] (fun _ => 0)).isSome = true := rfl
  rw [h1] at h2
  exact Bool.false_ne_true h2

/-- C9 (amended): a composition set cloned with a renamed phase produces
objective and gradient values identical to the original at the renamed
variables' corresponding values, provided the textual rename is
collision-free on the variables in use: the renamed index map agrees with
the original under the rename, the rename maps the old phase's `_FRAC`
variable to the new phase's `_FRAC` name, and no other differentiating
variable is renamed onto that name.  (Without these provisos the clone can
fail, see the counterexample.) -/
theorem C9_clone_equivalence (oldName newName : String) (models : List Expr)
    (es : List AstEntry) (idx : List (String × ℤ)) (x : ℤ → ℚ) (m : ℤ → ℚ)
    (H1 : ∀ s ∈ cloneRelevantNames models es (oldName ++ "_FRAC"),
        assocLookup (renameIndices oldName newName idx) (textReplace s oldName newName)
          = assocLookup idx s)
    (H2 : ∀ e ∈ es, (textReplace e.diffvar oldName newName = newName ++ "_FRAC"
        ↔ e.diffvar = oldName ++ "_FRAC"))
    (H3 : textReplace (oldName ++ "_FRAC") oldName newName = newName ++ "_FRAC") :
    evaluate_objective (models.map (ast_variable_rename oldName newName))
        (envOf (renameIndices oldName newName idx) x)
      = evaluate_objective models (envOf idx x)
    ∧ gradGo (newName ++ "_FRAC") (renameIndices oldName newName idx) x
        (renameEntries oldName newName es) m
      = gradGo (oldName ++ "_FRAC") idx x es m := by
  constructor
  · refine evaluate_objective_rename oldName newName models _ _ ?_
    intro t ht s hs
    simp only [envOf]
    rw [H1 s ?_]
    unfold cloneRelevantNames
    refine List.mem_cons_of_mem _ ?_
    refine List.mem_append.mpr (Or.inl ?_)
    refine List.mem_append.mpr (Or.inr ?_)
    exact List.mem_flatMap.mpr ⟨t, ht, hs⟩
  · refine gradGo_rename oldName newName idx x es m ?_ ?_ ?_ H2 H3
    · intro e he
      refine H1 e.diffvar ?_
      unfold cloneRelevantNames
      refine List.mem_cons_of_mem _ ?_
      refine List.mem_append.mpr (Or.inl ?_)
      refine List.mem_append.mpr (Or.inl ?_)
      exact List.mem_map.mpr ⟨e, he, rfl⟩
    · intro e he s hs
      refine H1 s ?_
      unfold cloneRelevantNames
      refine List.mem_cons_of_mem _ ?_
      refine List.mem_append.mpr (Or.inr ?_)
      exact List.mem_flatMap.mpr ⟨e.ast, List.mem_map.mpr ⟨e, he, rfl⟩, hs⟩
    · exact H1 _ (List.mem_cons_self _ _)

/-- C9 witness: a collision-free rename (ALPHA to GAMMA) with one model
tree and two derivative entries; the hypotheses are discharged by
evaluation and the clone agrees with the original. -/
theorem C9_clone_equivalence_witness :
    evaluate_objective
        ([Expr.var ("ALPHA_0_A")].map (ast_variable_rename ("ALPHA") ("GAMMA")))
        (envOf (renameIndices ("ALPHA") ("GAMMA") [("ALPHA_0_A", 0), ("ALPHA_FRAC", 1)])
          (fun i => if i = 0 then 1 / 4 else 1 / 2))
      = evaluate_objective [Expr.var ("ALPHA_0_A")]
        (envOf [("ALPHA_0_A", 0), ("ALPHA_FRAC", 1)] (fun i => if i = 0 then 1 / 4 else 1 / 2))
    ∧ gradGo ("GAMMA" ++ "_FRAC")
        (renameIndices ("ALPHA") ("GAMMA") [("ALPHA_0_A", 0), ("ALPHA_FRAC", 1)])
        (fun i => if i = 0 then 1 / 4 else 1 / 2)
        (renameEntries ("ALPHA") ("GAMMA")
          [⟨"ALPHA_FRAC", Expr.var ("ALPHA_0_A")⟩, ⟨"ALPHA_0_A", Expr.num 3⟩])
        (fun _ => 0)
      = gradGo ("ALPHA" ++ "_FRAC") [("ALPHA_0_A", 0), ("ALPHA_FRAC", 1)]
        (fun i => if i = 0 then 1 / 4 else 1 / 2)
        [⟨"ALPHA_FRAC", Expr.var ("ALPHA_0_A")⟩, ⟨"ALPHA_0_A", Expr.num 3⟩]
        (fun _ => 0) :=
  C9_clone_equivalence ("ALPHA") ("GAMMA") [Expr.var ("ALPHA_0_A")]
    [⟨"ALPHA_FRAC", Expr.var ("ALPHA_0_A")⟩, ⟨"ALPHA_0_A", Expr.num 3⟩]
    [("ALPHA_0_A", 0), ("ALPHA_FRAC", 1)]
    (fun i => if i = 0 then 1 / 4 else 1 / 2) (fun _ => 0)
    (by decide) (by decide) (by decide)

end PyCalphad
